import Mathlib

/-!
Shallow embedding of the chrypto backfill engine (chrypto.go).

The embedding is per-instrument: the store is that instrument's table,
modelled as `Option (List Quote)` (`none` = table absent, rows in insertion
order). Prices and volumes (Go `float64`) are modelled as rationals; the
only operation the code performs on them is exact comparison with zero.
Timestamps (Go `int64`) are modelled as `Int`; the one arithmetic
operation on them, the driver's `earliest.Time - 1`, is given Go's
wrapping int64 semantics explicitly via `int64Wrap`.

External effects are modelled as explicit inputs:
  - the network+decoder outcome of one HTTP round trip is a `FetchResult`;
  - exogenous (non-uniqueness) persistence errors and the success of
    `tx.Commit()` are a `FaultModel`.
-/

/-- `Quote` from chrypto.go: one hourly record. Field order as in the Go
struct: Time, Close, High, Low, Open, VolumeFrom, VolumeTo. -/
structure Quote where
  Time : Int
  Close : ℚ
  High : ℚ
  Low : ℚ
  Open : ℚ
  VolumeFrom : ℚ
  VolumeTo : ℚ
deriving DecidableEq, Repr

/-- `isDummyQuote` from chrypto.go (the Sentinel Detector): true iff the
four price fields are exactly zero. -/
def isDummyQuote (quote : Quote) : Bool :=
  if (quote.Open == 0) && (quote.Close == 0) && (quote.High == 0) && (quote.Low == 0) then
    true
  else
    false

/-- Database errors as the Go code distinguishes them: an sqlite3 error
carrying its extended result code (2067 = unique-constraint violation), or
any other error value. -/
inductive DBError where
  | sqlite (extendedCode : Nat)
  | other
deriving DecidableEq, Repr

/-- Model of the exogenous behaviour of the store during one `writeToDB`
call: `insertFault q` is a persistence error the engine raises on the
`tx.Exec` insert of `q` for reasons other than a uniqueness conflict
(I/O, schema, corruption); `commitOk` is whether `tx.Commit()` succeeds. -/
structure FaultModel where
  insertFault : Quote → Option DBError
  commitOk : Bool

/-- The fault-free store: no exogenous errors, commit succeeds. -/
def noFault : FaultModel :=
  FaultModel.mk (fun _ => none) true

/-- One `tx.Exec` INSERT of `q` with the rows `visible` (committed rows
plus the rows already inserted in this transaction) in view: an exogenous
fault is returned as that error; otherwise a row with the same `time`
yields the sqlite unique-constraint error 2067; otherwise success. -/
def txExec (f : Quote → Option DBError) (visible : List Quote) (q : Quote) : Option DBError :=
  match f q with
  | some e => some e
  | none =>
    if visible.any (fun r => r.Time == q.Time) then some (DBError.sqlite 2067) else none

/-- The `for _, q := range quotes` loop of `writeToDB`: `tx` is the list of
rows inserted so far in this transaction, `base` the committed table.
A sentinel breaks out of the loop; error 2067 logs and continues, skipping
the record; any other insert error returns it, abandoning the transaction. -/
def writeQuotesLoop (f : Quote → Option DBError) (base : List Quote) :
    List Quote → List Quote → Except DBError (List Quote)
  | tx, [] => Except.ok tx
  | tx, q :: rest =>
    if isDummyQuote q then
      Except.ok tx
    else
      match txExec f (base ++ tx) q with
      | none => writeQuotesLoop f base (tx ++ [q]) rest
      | some e =>
        if e = DBError.sqlite 2067 then writeQuotesLoop f base tx rest
        else Except.error e

/-- Result of a `writeToDB` call: the returned `(Quote, error)` pair, with
`panicEmpty` for the Go runtime panic of `quotes[0]` on an empty slice. -/
inductive WriteResult where
  | ok (earliest : Quote)
  | err (e : DBError)
  | panicEmpty
deriving DecidableEq, Repr

/-- `writeToDB` from chrypto.go. `createTableIfNeeded` is the `db.getD []`
step (an absent table becomes an empty one; creation is assumed to
succeed). On a loop error the transaction is never committed, so the
durable table is unchanged. On normal loop exit `tx.Commit()` is executed
and its result DISCARDED; the function then returns `quotes[0]` and a nil
error regardless of whether the commit succeeded. -/
def writeToDB (fm : FaultModel) (db : Option (List Quote)) (quotes : List Quote) :
    Option (List Quote) × WriteResult :=
  let base := db.getD []
  match writeQuotesLoop fm.insertFault base [] quotes with
  | Except.error e => (some base, WriteResult.err e)
  | Except.ok tx =>
    let committed := if fm.commitOk then base ++ tx else base
    match quotes.head? with
    | some q => (some committed, WriteResult.ok q)
    | none => (some committed, WriteResult.panicEmpty)

/-- Outcome of one HTTP round trip of `get`, as seen by the Go code:
`ok data` is a transport success with a well-formed body decoding to
`data`; `transportError` is a non-nil error from `http.Get`;
`decodeError decoded` is a transport success with a malformed body, where
`decoded` is whatever the JSON decoder managed to fill into `info.Data`
before failing (possibly nothing). -/
inductive FetchResult where
  | ok (data : List Quote)
  | transportError
  | decodeError (decoded : List Quote)
deriving DecidableEq, Repr

/-- What a call to `get` does to the process: returns a slice of Quotes,
or kills the whole process (`log.Fatal`). -/
inductive ProcOutcome where
  | returns (data : List Quote)
  | fatal
deriving DecidableEq, Repr

/-- `get` from chrypto.go, given the round trip's outcome. A non-nil
`http.Get` error hits `log.Fatal(err)`: the entire process aborts. The
decode step is `if json.NewDecoder(res.Body).Decode(&info); err != nil`:
the condition tests the STALE `err` from `http.Get` (necessarily nil here)
and the `Decode` error itself is discarded, so a malformed body is not
reported and `info.Data` — whatever was decoded — is returned as if the
fetch had succeeded. -/
def get (r : FetchResult) : ProcOutcome :=
  match r with
  | FetchResult.ok data => ProcOutcome.returns data
  | FetchResult.transportError => ProcOutcome.fatal
  | FetchResult.decodeError decoded => ProcOutcome.returns decoded

/-- Wrap an unbounded integer into Go's int64 range: two's-complement
wrap-around modulo 2^64 into the interval from -2^63 to 2^63 - 1. This is
the semantics of the Go expression `earliest.Time - 1`: at
`earliest.Time = MinInt64` it yields MaxInt64. On in-range arguments it is
the identity. -/
def int64Wrap (n : Int) : Int :=
  (n + 2 ^ 63) % 2 ^ 64 - 2 ^ 63

/-- Terminal/continuation outcome of one iteration of `getHistoricalFor`:
`done` = `donec <- symbol`; `failed e` = `errc <- err`; `continue_ next` =
recurse with `untilDate = earliest.Time - 1` (after the 500 ms sleep);
`panicked` = Go runtime panic from an out-of-range slice index; `fatal` =
`log.Fatal` inside `get` aborted the process. -/
inductive DriverOutcome where
  | done
  | failed (e : DBError)
  | continue_ (next : Int)
  | panicked
  | fatal
deriving DecidableEq, Repr

/-- One iteration of `getHistoricalFor` from chrypto.go for one instrument:
fetch at `unixtime`, index the last element (`data[len(data)-1]`, a panic
on an empty slice), stop with `done` if it is a sentinel (note: WITHOUT
writing the page), otherwise write the page and either report the error or
continue at `earliest.Time - 1`. Returns the outcome and the table after
the iteration; `fetch` gives the round-trip outcome at each cursor. -/
def getHistoricalForStep (fm : FaultModel) (fetch : Int → FetchResult)
    (db : Option (List Quote)) (unixtime : Int) : DriverOutcome × Option (List Quote) :=
  match get (fetch unixtime) with
  | ProcOutcome.fatal => (DriverOutcome.fatal, db)
  | ProcOutcome.returns data =>
    match data.getLast? with
    | none => (DriverOutcome.panicked, db)
    | some last =>
      if isDummyQuote last then
        (DriverOutcome.done, db)
      else
        match writeToDB fm db data with
        | (db2, WriteResult.err e) => (DriverOutcome.failed e, db2)
        | (db2, WriteResult.panicEmpty) => (DriverOutcome.panicked, db2)
        | (db2, WriteResult.ok earliest) =>
          (DriverOutcome.continue_ (int64Wrap (earliest.Time - 1)), db2)

/-- The sequence of `unixtime` cursor values used by successive
`getHistoricalFor` iterations (the `beforeTime` of each fetch), up to
`fuel` iterations; the recursion of the Go code is unbounded, `fuel` only
truncates the observation window. -/
def getHistoricalForTrace (fm : FaultModel) (fetch : Int → FetchResult) :
    Nat → Option (List Quote) → Int → List Int
  | 0, _, _ => []
  | Nat.succ fuel, db, unixtime =>
    unixtime ::
      match getHistoricalForStep fm fetch db unixtime with
      | (DriverOutcome.continue_ next, db2) => getHistoricalForTrace fm fetch fuel db2 next
      | _ => []

/-! ### Concrete fixtures for witnesses and counterexamples -/

/-- A real (non-sentinel) quote at time 10. -/
def qReal : Quote := ⟨10, 1, 1, 1, 1, 0, 0⟩

/-- A real (non-sentinel) quote at time 8. -/
def qReal2 : Quote := ⟨8, 2, 2, 2, 2, 0, 0⟩

/-- A sentinel quote (all four prices zero) at time 9, with nonzero
volumes. -/
def qSent : Quote := ⟨9, 0, 0, 0, 0, 5, 5⟩

/-- A pre-existing row sharing time 10 with `qReal` but different prices. -/
def qOld : Quote := ⟨10, 3, 3, 3, 3, 1, 1⟩

/-- A real (non-sentinel) quote at MinInt64, the smallest int64 time. -/
def qMin : Quote := ⟨-(2 ^ 63), 1, 1, 1, 1, 0, 0⟩

/-- A fetch behaviour: every page is a single real quote 10 seconds before
the requested boundary, for boundaries inside the int64-safe window; a
transport error outside it. -/
def fetchShiftSafe : Int → FetchResult :=
  fun t =>
    if -(2 ^ 63) + 11 < t ∧ t < 2 ^ 63 then
      FetchResult.ok [⟨t - 10, 1, 1, 1, 1, 0, 0⟩]
    else
      FetchResult.transportError

/-- A fetch behaviour exercising the int64 wrap-around: every page is the
single real quote `qMin` at MinInt64 when the boundary is at least
MinInt64, and a quote exactly at the boundary otherwise — so every fetched
Quote's time is at most the requested boundary, at every cursor. -/
def fetchWrapMin : Int → FetchResult :=
  fun t =>
    if -(2 ^ 63) ≤ t then FetchResult.ok [qMin]
    else FetchResult.ok [⟨t, 1, 1, 1, 1, 0, 0⟩]

/-- A fetch behaviour: every page has one leading real quote and a
trailing sentinel (a final page of history). -/
def fetchFinalPage : Int → FetchResult :=
  fun _ => FetchResult.ok [qReal, qSent]

/-- A fetch behaviour: the transport always fails. -/
def fetchTransportErr : Int → FetchResult :=
  fun _ => FetchResult.transportError

/-- A fetch behaviour: well-formed transport, malformed body, nothing
decoded. -/
def fetchDecodeEmpty : Int → FetchResult :=
  fun _ => FetchResult.decodeError []

/-- A fetch behaviour: well-formed transport, malformed body, one record
decoded before the failure. -/
def fetchDecodeGarbage : Int → FetchResult :=
  fun _ => FetchResult.decodeError [qReal]

/-- A fetch behaviour: a decoded, empty page. -/
def fetchEmptyPage : Int → FetchResult :=
  fun _ => FetchResult.ok []

/-- A store whose commit silently fails. -/
def fmNoCommit : FaultModel :=
  FaultModel.mk (fun _ => none) false

/-- A store that raises a non-uniqueness persistence error when inserting
the row with time 10. -/
def fmFaultAt10 : FaultModel :=
  FaultModel.mk (fun q => if q.Time == 10 then some DBError.other else none) true

/-! ### Helper lemmas about the writer loop -/

/-- The loop never reads past the first sentinel: truncating the batch at
the first sentinel does not change the loop's result. -/
theorem writeQuotesLoop_truncate (f : Quote → Option DBError) (base : List Quote)
    (quotes : List Quote) : ∀ tx, writeQuotesLoop f base tx quotes =
      writeQuotesLoop f base tx (quotes.takeWhile (fun q => !isDummyQuote q)) := by
  induction quotes with
  | nil => intro tx; rfl
  | cons q rest ih =>
    intro tx
    by_cases hq : isDummyQuote q
    · simp [writeQuotesLoop, List.takeWhile_cons, hq]
    · simp only [Bool.not_eq_true] at hq
      simp only [writeQuotesLoop, List.takeWhile_cons, hq, Bool.not_false, if_true,
        Bool.false_eq_true, if_false]
      cases htx : txExec f (base ++ tx) q with
      | none => exact ih (tx ++ [q])
      | some e =>
        by_cases he : e = DBError.sqlite 2067
        · simp [he, ih tx]
        · simp [he]

/-- Every row the loop accumulates beyond its starting transaction comes
from the batch and is not a sentinel. -/
theorem writeQuotesLoop_ok_mem (f : Quote → Option DBError) (base : List Quote)
    (quotes : List Quote) : ∀ tx tx2, writeQuotesLoop f base tx quotes = Except.ok tx2 →
      ∀ r ∈ tx2, r ∈ tx ∨ (r ∈ quotes ∧ isDummyQuote r = false) := by
  induction quotes with
  | nil =>
    intro tx tx2 h r hr
    simp only [writeQuotesLoop] at h
    cases h
    exact Or.inl hr
  | cons q rest ih =>
    intro tx tx2 h r hr
    by_cases hq : isDummyQuote q
    · simp only [writeQuotesLoop, hq, if_true] at h
      cases h
      exact Or.inl hr
    · simp only [Bool.not_eq_true] at hq
      simp only [writeQuotesLoop, hq, Bool.false_eq_true, if_false] at h
      cases htx : txExec f (base ++ tx) q with
      | none =>
        rw [htx] at h
        rcases ih (tx ++ [q]) tx2 h r hr with hin | hin
        · rcases List.mem_append.mp hin with hin2 | hin2
          · exact Or.inl hin2
          · simp only [List.mem_singleton] at hin2
            rw [hin2]
            exact Or.inr ⟨List.mem_cons_self q rest, hq⟩
        · exact Or.inr ⟨List.mem_cons_of_mem q hin.1, hin.2⟩
      | some e =>
        rw [htx] at h
        dsimp only at h
        by_cases he : e = DBError.sqlite 2067
        · rw [if_pos he] at h
          rcases ih tx tx2 h r hr with hin | hin
          · exact Or.inl hin
          · exact Or.inr ⟨List.mem_cons_of_mem q hin.1, hin.2⟩
        · rw [if_neg he] at h
          cases h

/-- When there is an error the loop's result table plays no role: an
error return means the transaction was abandoned. (Shape lemma: the loop
result is either ok or error; trivial, used for case analysis.) -/
theorem writeToDB_err_table (fm : FaultModel) (base : List Quote) (quotes : List Quote)
    (e : DBError) (h : (writeToDB fm (some base) quotes).2 = WriteResult.err e) :
    (writeToDB fm (some base) quotes).1 = some base := by
  simp only [writeToDB, Option.getD_some] at h ⊢
  cases hl : writeQuotesLoop fm.insertFault base [] quotes with
  | error e2 => simp [hl]
  | ok tx =>
    rw [hl] at h
    cases hh : quotes.head? <;> simp [hh] at h

/-- With no exogenous faults, a sentinel-free batch of pairwise-distinct
times, and a transaction that so far holds no time of the batch, the loop
succeeds and appends exactly the records whose time is not already in the
committed table; records whose time conflicts with the table are skipped. -/
theorem writeQuotesLoop_noConflict (base : List Quote) (quotes : List Quote)
    (hs : ∀ q ∈ quotes, isDummyQuote q = false)
    (hp : quotes.Pairwise (fun a b => a.Time ≠ b.Time)) :
    ∀ tx, (∀ q ∈ quotes, ∀ r ∈ tx, r.Time ≠ q.Time) →
      writeQuotesLoop (fun _ => none) base tx quotes =
        Except.ok (tx ++ quotes.filter (fun q => base.all (fun r => r.Time != q.Time))) := by
  induction quotes with
  | nil => intro tx htx; simp [writeQuotesLoop]
  | cons q rest ih =>
    intro tx htx
    have hq : isDummyQuote q = false := hs q (List.mem_cons_self q rest)
    have hsr : ∀ x ∈ rest, isDummyQuote x = false := fun x hx => hs x (List.mem_cons_of_mem q hx)
    have hpr : rest.Pairwise (fun a b => a.Time ≠ b.Time) := (List.pairwise_cons.mp hp).2
    have hqrest : ∀ x ∈ rest, q.Time ≠ x.Time := (List.pairwise_cons.mp hp).1
    simp only [writeQuotesLoop, hq, Bool.false_eq_true, if_false]
    by_cases hb : base.any (fun r => r.Time == q.Time) = true
    · have htxe : txExec (fun _ => none) (base ++ tx) q = some (DBError.sqlite 2067) := by
        simp [txExec, List.any_append, hb]
      rw [htxe]
      dsimp only
      rw [if_pos rfl]
      rw [ih hsr hpr tx (fun x hx r hr => htx x (List.mem_cons_of_mem q hx) r hr)]
      have hall : base.all (fun r => r.Time != q.Time) = false := by
        rcases List.any_eq_true.mp hb with ⟨r0, hr0, hr0t⟩
        apply Bool.eq_false_iff.mpr
        intro hcontra
        have := List.all_eq_true.mp hcontra r0 hr0
        simp only [bne_iff_ne, ne_eq, beq_iff_eq] at this hr0t
        exact this hr0t
      simp [List.filter_cons, hall]
    · have hnb : base.any (fun r => r.Time == q.Time) = false := Bool.eq_false_iff.mpr hb
      have hntx : tx.any (fun r => r.Time == q.Time) = false := by
        apply Bool.eq_false_iff.mpr
        intro hcontra
        rcases List.any_eq_true.mp hcontra with ⟨r0, hr0, hr0t⟩
        simp only [beq_iff_eq] at hr0t
        exact htx q (List.mem_cons_self q rest) r0 hr0 hr0t
      have htxe : txExec (fun _ => none) (base ++ tx) q = none := by
        simp [txExec, List.any_append, hnb, hntx]
      rw [htxe]
      dsimp only
      have htx2 : ∀ x ∈ rest, ∀ r ∈ tx ++ [q], r.Time ≠ x.Time := by
        intro x hx r hr
        rcases List.mem_append.mp hr with hr2 | hr2
        · exact htx x (List.mem_cons_of_mem q hx) r hr2
        · simp only [List.mem_singleton] at hr2
          rw [hr2]
          exact hqrest x hx
      rw [ih hsr hpr (tx ++ [q]) htx2]
      have hall : base.all (fun r => r.Time != q.Time) = true := by
        apply List.all_eq_true.mpr
        intro r0 hr0
        simp only [bne_iff_ne, ne_eq, beq_iff_eq]
        intro hcontra
        apply hb
        apply List.any_eq_true.mpr
        exact ⟨r0, hr0, beq_iff_eq.mpr hcontra⟩
      simp [List.filter_cons, hall]

/-- A nil-error return from `writeToDB` carries the FIRST Quote of the
batch as received (`earliest := quotes[0]`). -/
theorem writeToDB_ok_head (fm : FaultModel) (db : Option (List Quote)) (quotes : List Quote)
    (q : Quote) (h : (writeToDB fm db quotes).2 = WriteResult.ok q) : quotes.head? = some q := by
  simp only [writeToDB] at h
  cases hl : writeQuotesLoop fm.insertFault (db.getD []) [] quotes with
  | error e =>
    rw [hl] at h
    cases h
  | ok tx =>
    rw [hl] at h
    dsimp only at h
    cases hh : quotes.head? with
    | none => rw [hh] at h; cases h
    | some q2 =>
      rw [hh] at h
      dsimp only at h
      cases h
      rfl

/-- Unfolding lemma for one driver iteration when the fetch returns data
(successfully decoded or silently-truncated by the decode bug alike). -/
theorem getHistoricalForStep_returns (fm : FaultModel) (fetch : Int → FetchResult)
    (db : Option (List Quote)) (unixtime : Int) (data : List Quote)
    (hg : get (fetch unixtime) = ProcOutcome.returns data) :
    getHistoricalForStep fm fetch db unixtime =
      match data.getLast? with
      | none => (DriverOutcome.panicked, db)
      | some last =>
        if isDummyQuote last then
          (DriverOutcome.done, db)
        else
          match writeToDB fm db data with
          | (db2, WriteResult.err e) => (DriverOutcome.failed e, db2)
          | (db2, WriteResult.panicEmpty) => (DriverOutcome.panicked, db2)
          | (db2, WriteResult.ok earliest) =>
            (DriverOutcome.continue_ (int64Wrap (earliest.Time - 1)), db2) := by
  simp only [getHistoricalForStep, hg]

/-- Unfolding lemma for one driver iteration when the HTTP transport
fails: `log.Fatal` aborts the process, the store untouched. -/
theorem getHistoricalForStep_fatal (fm : FaultModel) (fetch : Int → FetchResult)
    (db : Option (List Quote)) (unixtime : Int)
    (hg : get (fetch unixtime) = ProcOutcome.fatal) :
    getHistoricalForStep fm fetch db unixtime = (DriverOutcome.fatal, db) := by
  simp only [getHistoricalForStep, hg]

/-- Inversion lemma: a driver iteration that continues came from a page
returned by `get`, written successfully, with the next cursor equal to the
page's first Quote's time minus one. -/
theorem getHistoricalForStep_continue (fm : FaultModel) (fetch : Int → FetchResult)
    (db : Option (List Quote)) (unixtime : Int) (next : Int) (db2 : Option (List Quote))
    (h : getHistoricalForStep fm fetch db unixtime = (DriverOutcome.continue_ next, db2)) :
    ∃ data q, get (fetch unixtime) = ProcOutcome.returns data ∧ data.head? = some q ∧
      next = int64Wrap (q.Time - 1) ∧ q ∈ data := by
  cases hg : get (fetch unixtime) with
  | fatal =>
    rw [getHistoricalForStep_fatal fm fetch db unixtime hg] at h
    exact absurd (congrArg Prod.fst h) (by simp)
  | returns data =>
    rw [getHistoricalForStep_returns fm fetch db unixtime data hg] at h
    cases hl : data.getLast? with
    | none =>
      rw [hl] at h
      exact absurd (congrArg Prod.fst h) (by simp)
    | some last =>
      rw [hl] at h
      dsimp only at h
      by_cases hd : isDummyQuote last = true
      · rw [if_pos hd] at h
        exact absurd (congrArg Prod.fst h) (by simp)
      · rw [if_neg hd] at h
        rcases hw : writeToDB fm db data with ⟨t, r⟩
        rw [hw] at h
        cases r with
        | err e => exact absurd (congrArg Prod.fst h) (by simp)
        | panicEmpty => exact absurd (congrArg Prod.fst h) (by simp)
        | ok q =>
          dsimp only at h
          have hq : data.head? = some q :=
            writeToDB_ok_head fm db data q (by rw [hw])
          have hnext : next = int64Wrap (q.Time - 1) := by
            have h1 := congrArg Prod.fst h
            simp only [DriverOutcome.continue_.injEq] at h1
            exact h1.symm
          exact ⟨data, q, rfl, hq, hnext, List.mem_of_mem_head? hq⟩

/-- The first cursor of a nonempty trace is the starting cursor. -/
theorem getHistoricalForTrace_head (fm : FaultModel) (fetch : Int → FetchResult)
    (fuel : Nat) (db : Option (List Quote)) (unixtime : Int) (y : Int)
    (hy : y ∈ (getHistoricalForTrace fm fetch fuel db unixtime).head?) : y = unixtime := by
  cases fuel with
  | zero => cases hy
  | succ n =>
    simp only [getHistoricalForTrace, List.head?_cons, Option.mem_def, Option.some.injEq] at hy
    exact hy.symm

/-! ### Claim theorems -/

/-- C8: the Sentinel Detector `isDummyQuote` classifies a Quote as a
sentinel iff its open, high, low and close fields are all exactly zero;
the volume fields play no role. -/
theorem c8_isDummyQuote_iff_prices_zero (q : Quote) :
    (isDummyQuote q = true ↔ (q.Open = 0 ∧ q.High = 0 ∧ q.Low = 0 ∧ q.Close = 0))
    ∧ ∀ vF vT : ℚ,
        isDummyQuote (Quote.mk q.Time q.Close q.High q.Low q.Open vF vT) = isDummyQuote q := by
  constructor
  · simp [isDummyQuote]
    tauto
  · intro vF vT
    rfl

/-- C4: the Store Writer processes the batch in order and stops at the
first sentinel: its durable result is the same as for the batch truncated
at the first sentinel, and every persisted row either pre-existed or is a
non-sentinel member of the sentinel-free prefix — no sentinel, and nothing
after the first sentinel, is ever persisted. -/
theorem c4_writer_stops_at_first_sentinel (fm : FaultModel) (base : List Quote)
    (quotes : List Quote) :
    (writeToDB fm (some base) quotes).1 =
      (writeToDB fm (some base) (quotes.takeWhile (fun q => !isDummyQuote q))).1
    ∧ ∀ r, r ∈ ((writeToDB fm (some base) quotes).1.getD []) →
        r ∈ base ∨ (r ∈ quotes.takeWhile (fun q => !isDummyQuote q) ∧ isDummyQuote r = false) := by
  constructor
  · simp only [writeToDB, Option.getD_some]
    rw [← writeQuotesLoop_truncate fm.insertFault base quotes []]
    cases hl : writeQuotesLoop fm.insertFault base [] quotes with
    | error e => rfl
    | ok tx =>
      dsimp only
      cases hh : quotes.head? <;>
        cases hh2 : (quotes.takeWhile (fun q => !isDummyQuote q)).head? <;>
          simp [hh, hh2]
  · intro r hr
    simp only [writeToDB, Option.getD_some] at hr
    cases hl : writeQuotesLoop fm.insertFault base [] quotes with
    | error e =>
      rw [hl] at hr
      simp only [Option.getD_some] at hr
      exact Or.inl hr
    | ok tx =>
      rw [hl] at hr
      dsimp only at hr
      have hmem : r ∈ (if fm.commitOk then base ++ tx else base) := by
        cases hh : quotes.head? <;> rw [hh] at hr <;> simpa using hr
      have htx : r ∈ base ∨ r ∈ tx := by
        by_cases hc : fm.commitOk
        · rw [if_pos hc] at hmem
          exact List.mem_append.mp hmem
        · rw [if_neg hc] at hmem
          exact Or.inl hmem
      rcases htx with hb | htx2
      · exact Or.inl hb
      · have hl2 : writeQuotesLoop fm.insertFault base []
            (quotes.takeWhile (fun q => !isDummyQuote q)) = Except.ok tx := by
          rw [← writeQuotesLoop_truncate fm.insertFault base quotes []]
          exact hl
        rcases writeQuotesLoop_ok_mem fm.insertFault base
            (quotes.takeWhile (fun q => !isDummyQuote q)) [] tx hl2 r htx2 with hnil | hgood
        · cases hnil
        · exact Or.inr hgood

/-- C4 witness: with batch `[qReal, qSent, qReal2]` over an empty table,
the committed table equals that of the truncated batch, and the persisted
row `qReal` is a non-sentinel member of the sentinel-free prefix. -/
theorem c4_writer_stops_at_first_sentinel_witness :
    ((writeToDB noFault (some []) [qReal, qSent, qReal2]).1 =
      (writeToDB noFault (some [])
        ([qReal, qSent, qReal2].takeWhile (fun q => !isDummyQuote q))).1)
    ∧ (qReal ∈ ([] : List Quote)
        ∨ (qReal ∈ [qReal, qSent, qReal2].takeWhile (fun q => !isDummyQuote q)
            ∧ isDummyQuote qReal = false)) :=
  ⟨(c4_writer_stops_at_first_sentinel noFault [] [qReal, qSent, qReal2]).1,
   (c4_writer_stops_at_first_sentinel noFault [] [qReal, qSent, qReal2]).2 qReal (by decide)⟩

/-- C5: on a fault-free store, writing a sentinel-free batch with
pairwise-distinct times succeeds overall even when some times already
exist in the table: the call returns the batch's first Quote with a nil
error (the uniqueness conflict is never surfaced), the existing rows are
left unchanged in place, conflicting records are skipped, and exactly the
non-conflicting records are appended. -/
theorem c5_uniqueness_conflict_skipped (base : List Quote) (quotes : List Quote)
    (hs : ∀ q ∈ quotes, isDummyQuote q = false)
    (hp : quotes.Pairwise (fun a b => a.Time ≠ b.Time))
    (hne : quotes ≠ []) :
    (∃ q0, quotes.head? = some q0 ∧ (writeToDB noFault (some base) quotes).2 = WriteResult.ok q0)
    ∧ (writeToDB noFault (some base) quotes).1 =
        some (base ++ quotes.filter (fun q => base.all (fun r => r.Time != q.Time))) := by
  have hloop : writeQuotesLoop noFault.insertFault base [] quotes =
      Except.ok ([] ++ quotes.filter (fun q => base.all (fun r => r.Time != q.Time))) := by
    exact writeQuotesLoop_noConflict base quotes hs hp []
      (fun q hq r hr => absurd hr (List.not_mem_nil r))
  rw [List.nil_append] at hloop
  cases quotes with
  | nil => exact absurd rfl hne
  | cons q0 rest =>
    constructor
    · refine ⟨q0, rfl, ?_⟩
      simp only [writeToDB, Option.getD_some, hloop]
      rfl
    · simp only [writeToDB, Option.getD_some, hloop]
      simp [noFault]

/-- C5 witness: table `[qOld]` (time 10), batch `[qReal, qReal2]` with
`qReal` also at time 10: the call succeeds returning `qReal`, `qOld` is
untouched, `qReal` is skipped, `qReal2` is appended. -/
theorem c5_uniqueness_conflict_skipped_witness :
    ((∃ q0, ([qReal, qReal2] : List Quote).head? = some q0
        ∧ (writeToDB noFault (some [qOld]) [qReal, qReal2]).2 = WriteResult.ok q0)
      ∧ (writeToDB noFault (some [qOld]) [qReal, qReal2]).1 =
          some ([qOld] ++ [qReal, qReal2].filter
            (fun q => [qOld].all (fun r => r.Time != q.Time))))
    ∧ (writeToDB noFault (some [qOld]) [qReal, qReal2]).1 = some [qOld, qReal2] :=
  ⟨c5_uniqueness_conflict_skipped [qOld] [qReal, qReal2] (by decide) (by decide) (by decide),
   by decide⟩

/-- C10 (implicit): `writeToDB` discards the result of `tx.Commit()`: the
caller-visible `(Quote, error)` result is identical whether or not the
commit succeeds, and when the commit fails the durable table is left
unchanged — so a caller-visible success does not guarantee durability. -/
theorem c10_commit_result_discarded (fm : FaultModel) (db : Option (List Quote))
    (quotes : List Quote) :
    (writeToDB fm db quotes).2 = (writeToDB (FaultModel.mk fm.insertFault true) db quotes).2
    ∧ (fm.commitOk = false → (writeToDB fm db quotes).1 = some (db.getD [])) := by
  constructor
  · simp only [writeToDB]
    cases hl : writeQuotesLoop fm.insertFault (db.getD []) [] quotes with
    | error e => rfl
    | ok tx =>
      dsimp only
      cases hh : quotes.head? <;> simp [hh]
  · intro hc
    simp only [writeToDB]
    cases hl : writeQuotesLoop fm.insertFault (db.getD []) [] quotes with
    | error e => rfl
    | ok tx =>
      dsimp only
      cases hh : quotes.head? <;> simp [hh, hc]

/-- C10 witness: with a store whose commit fails, writing `[qReal]` to an
empty table reports the same success `ok qReal` as the committing store,
while the durable table stays empty. -/
theorem c10_commit_result_discarded_witness :
    ((writeToDB fmNoCommit (some []) [qReal]).2 =
        (writeToDB (FaultModel.mk fmNoCommit.insertFault true) (some []) [qReal]).2
      ∧ (writeToDB fmNoCommit (some []) [qReal]).1 = some (Option.getD (some []) []))
    ∧ (writeToDB fmNoCommit (some []) [qReal]).2 = WriteResult.ok qReal :=
  ⟨⟨(c10_commit_result_discarded fmNoCommit (some []) [qReal]).1,
    (c10_commit_result_discarded fmNoCommit (some []) [qReal]).2 rfl⟩,
   by decide⟩

/-- C7: whenever `writeToDB` returns an error (necessarily neither a
skipped uniqueness conflict nor the sentinel early-stop, which do not
produce errors), no commit occurs — the durable table is exactly the
pre-call table — and on that page the driver terminates emitting
`failed e` with the store unchanged. -/
theorem c7_other_error_aborts_uncommitted (fm : FaultModel) (base : List Quote)
    (quotes : List Quote) (e : DBError)
    (h : (writeToDB fm (some base) quotes).2 = WriteResult.err e) :
    (writeToDB fm (some base) quotes).1 = some base
    ∧ ∀ fetch unixtime last, fetch unixtime = FetchResult.ok quotes →
        quotes.getLast? = some last → isDummyQuote last = false →
        getHistoricalForStep fm fetch (some base) unixtime = (DriverOutcome.failed e, some base) := by
  have htab : (writeToDB fm (some base) quotes).1 = some base :=
    writeToDB_err_table fm base quotes e h
  refine ⟨htab, ?_⟩
  intro fetch unixtime last hf hlast hnd
  have hw2 : writeToDB fm (some base) quotes = (some base, WriteResult.err e) := by
    rcases hww : writeToDB fm (some base) quotes with ⟨t, r⟩
    rw [hww] at h htab
    simp only at h htab
    rw [h, htab]
  rw [getHistoricalForStep_returns fm fetch (some base) unixtime quotes (by rw [hf]; rfl), hlast]
  dsimp only
  rw [hnd]
  simp only [Bool.false_eq_true, if_false, hw2]

/-- C7 witness: a store that faults on inserting time 10 makes
`writeToDB` of `[qReal]` return `DBError.other`; the table stays empty and
the driver step emits `failed DBError.other`. -/
theorem c7_other_error_aborts_uncommitted_witness :
    (writeToDB fmFaultAt10 (some []) [qReal]).1 = some []
    ∧ ∀ fetch unixtime last, fetch unixtime = FetchResult.ok [qReal] →
        ([qReal] : List Quote).getLast? = some last → isDummyQuote last = false →
        getHistoricalForStep fmFaultAt10 fetch (some []) unixtime =
          (DriverOutcome.failed DBError.other, some []) :=
  c7_other_error_aborts_uncommitted fmFaultAt10 [] [qReal] DBError.other (by decide)

/-- C6 counterexample: the original claim fails at Go's int64 boundary.
The page fetched at boundary MinInt64 = -(2^63) is the single real quote
`qMin` whose time, MinInt64, satisfies the claim's hypothesis (time at
most the requested beforeTime) — `fetchWrapMin` satisfies it at every
cursor — yet the driver's next cursor is the int64-wrapped
`MinInt64 - 1 = MaxInt64 = 2^63 - 1`: it is NOT the Quote's time minus 1,
it is NOT below the previous boundary, and the cursor sequence
`[-(2^63), 2^63 - 1]` is not strictly decreasing. -/
theorem c6_min_time_cursor_wrap_counterexample :
    get (fetchWrapMin (-(2 ^ 63))) = ProcOutcome.returns [qMin]
    ∧ qMin.Time ≤ -(2 ^ 63)
    ∧ getHistoricalForStep noFault fetchWrapMin none (-(2 ^ 63)) =
        (DriverOutcome.continue_ (2 ^ 63 - 1), some [qMin])
    ∧ (2 ^ 63 - 1 : Int) ≠ qMin.Time - 1
    ∧ ¬((2 ^ 63 - 1 : Int) < -(2 ^ 63))
    ∧ getHistoricalForTrace noFault fetchWrapMin 2 none (-(2 ^ 63)) = [-(2 ^ 63), 2 ^ 63 - 1]
    ∧ ¬ List.Chain' (fun a b => b < a)
        (getHistoricalForTrace noFault fetchWrapMin 2 none (-(2 ^ 63))) := by
  have ht : getHistoricalForTrace noFault fetchWrapMin 2 none (-(2 ^ 63)) =
      [-(2 ^ 63), 2 ^ 63 - 1] := by decide
  refine ⟨by decide, by decide, by decide, by decide, by decide, ht, ?_⟩
  rw [ht]
  intro hchain
  rw [List.chain'_cons'] at hchain
  have hlt := hchain.1 (2 ^ 63 - 1) rfl
  exact absurd hlt (by decide)

/-- C6 (amended): a nil-error `writeToDB` returns the first Quote of the
batch as received; a continuing driver iteration sets the next fetch
cursor to the int64-wrapped value of that Quote's time minus 1 — equal to
the time minus 1 whenever the time lies strictly above MinInt64 and
within int64 range; and under the hypotheses that every Quote of a
fetched page has time at most the requested `unixtime` boundary AND
strictly between MinInt64 (exclusive) and 2^63 (exclusive), the sequence
of `unixtime` values across successive fetch/write cycles of one
instrument's run is strictly decreasing. At time = MinInt64 the Go
subtraction wraps to MaxInt64 and the decrease fails (see the
counterexample). -/
theorem c6_cursor_strictly_decreasing (fm : FaultModel) (fetch : Int → FetchResult)
    (hfetch : ∀ t data, get (fetch t) = ProcOutcome.returns data → ∀ q ∈ data, q.Time ≤ t)
    (hrange : ∀ t data, get (fetch t) = ProcOutcome.returns data →
        ∀ q ∈ data, -(2 ^ 63) < q.Time ∧ q.Time < 2 ^ 63) :
    (∀ db quotes q, (writeToDB fm db quotes).2 = WriteResult.ok q → quotes.head? = some q)
    ∧ (∀ db unixtime next db2,
        getHistoricalForStep fm fetch db unixtime = (DriverOutcome.continue_ next, db2) →
        (∃ data q, get (fetch unixtime) = ProcOutcome.returns data ∧ data.head? = some q ∧
          next = int64Wrap (q.Time - 1) ∧ next = q.Time - 1) ∧ next < unixtime)
    ∧ ∀ fuel db unixtime,
        List.Chain' (fun a b => b < a) (getHistoricalForTrace fm fetch fuel db unixtime) := by
  have hstep : ∀ db unixtime next db2,
      getHistoricalForStep fm fetch db unixtime = (DriverOutcome.continue_ next, db2) →
      (∃ data q, get (fetch unixtime) = ProcOutcome.returns data ∧ data.head? = some q ∧
        next = int64Wrap (q.Time - 1) ∧ next = q.Time - 1) ∧ next < unixtime := by
    intro db unixtime next db2 h
    rcases getHistoricalForStep_continue fm fetch db unixtime next db2 h with
      ⟨data, q, hg, hq, hnext, hmem⟩
    have hb := hfetch unixtime data hg q hmem
    rcases hrange unixtime data hg q hmem with ⟨hlo, hhi⟩
    have hid : int64Wrap (q.Time - 1) = q.Time - 1 := by
      simp only [int64Wrap]
      omega
    have hnext2 : next = q.Time - 1 := by rw [hnext, hid]
    refine ⟨⟨data, q, hg, hq, hnext, hnext2⟩, ?_⟩
    omega
  refine ⟨fun db quotes q h => writeToDB_ok_head fm db quotes q h, hstep, ?_⟩
  intro fuel
  induction fuel with
  | zero => intro db unixtime; simp [getHistoricalForTrace]
  | succ n ih =>
    intro db unixtime
    simp only [getHistoricalForTrace]
    rcases hs : getHistoricalForStep fm fetch db unixtime with ⟨o, db2⟩
    cases o with
    | continue_ next =>
      rw [List.chain'_cons']
      constructor
      · intro y hy
        rw [getHistoricalForTrace_head fm fetch n db2 next y hy]
        exact (hstep db unixtime next db2 hs).2
      · exact ih db2 next
    | done => simp
    | failed e => simp
    | panicked => simp
    | fatal => simp

/-- C6 witness: with pages always 10 seconds before the boundary inside
the int64-safe window, three observed cursors strictly decrease; the
writer on `[90 s]` over an empty store returns that first quote. -/
theorem c6_cursor_strictly_decreasing_witness :
    List.Chain' (fun a b => b < a) (getHistoricalForTrace noFault fetchShiftSafe 3 none 100)
    ∧ (([⟨90, 1, 1, 1, 1, 0, 0⟩] : List Quote).head? = some ⟨90, 1, 1, 1, 1, 0, 0⟩
        ∧ (writeToDB noFault none [⟨90, 1, 1, 1, 1, 0, 0⟩]).2 =
            WriteResult.ok ⟨90, 1, 1, 1, 1, 0, 0⟩) := by
  have hinv : ∀ t data, get (fetchShiftSafe t) = ProcOutcome.returns data →
      data = [(⟨t - 10, 1, 1, 1, 1, 0, 0⟩ : Quote)] ∧ -(2 ^ 63) + 11 < t ∧ t < 2 ^ 63 := by
    intro t data h
    by_cases hc : -(2 ^ 63) + 11 < t ∧ t < 2 ^ 63
    · have hf : fetchShiftSafe t = FetchResult.ok [⟨t - 10, 1, 1, 1, 1, 0, 0⟩] := by
        simp only [fetchShiftSafe, if_pos hc]
      rw [hf] at h
      have h2 : ProcOutcome.returns [(⟨t - 10, 1, 1, 1, 1, 0, 0⟩ : Quote)] =
          ProcOutcome.returns data := h
      injection h2 with h3
      exact ⟨h3.symm, hc⟩
    · have hf : fetchShiftSafe t = FetchResult.transportError := by
        simp only [fetchShiftSafe, if_neg hc]
      rw [hf] at h
      exact ProcOutcome.noConfusion h
  have hfetch : ∀ t data, get (fetchShiftSafe t) = ProcOutcome.returns data →
      ∀ q ∈ data, q.Time ≤ t := by
    intro t data h q hq
    rcases hinv t data h with ⟨h3, hc⟩
    rw [h3] at hq
    simp only [List.mem_singleton] at hq
    rw [hq]
    show t - 10 ≤ t
    omega
  have hrange : ∀ t data, get (fetchShiftSafe t) = ProcOutcome.returns data →
      ∀ q ∈ data, -(2 ^ 63) < q.Time ∧ q.Time < 2 ^ 63 := by
    intro t data h q hq
    rcases hinv t data h with ⟨h3, hc⟩
    rw [h3] at hq
    simp only [List.mem_singleton] at hq
    rw [hq]
    refine ⟨?_, ?_⟩
    · show -(2 ^ 63) < t - 10
      omega
    · show t - 10 < 2 ^ 63
      omega
  refine ⟨(c6_cursor_strictly_decreasing noFault fetchShiftSafe hfetch hrange).2.2 3 none 100,
    rfl, ?_⟩
  have := (c6_cursor_strictly_decreasing noFault fetchShiftSafe hfetch hrange).1
    none [⟨90, 1, 1, 1, 1, 0, 0⟩] ⟨90, 1, 1, 1, 1, 0, 0⟩
  decide

/-- C1 counterexample: the page `[qReal, qSent]` ends with a sentinel and
contains the leading real quote `qReal`, yet the driver ends in `done`
with the store unchanged (empty): the leading real Quotes of the final
page are NOT persisted, contrary to the claim. -/
theorem c1_final_page_counterexample :
    getHistoricalForStep noFault fetchFinalPage (some []) 100 = (DriverOutcome.done, some [])
    ∧ isDummyQuote qReal = false
    ∧ ([qReal, qSent] : List Quote).getLast? = some qSent
    ∧ isDummyQuote qSent = true := by decide

/-- C1 (amended): for every fetched page whose last Quote is a sentinel,
the driver ends that instrument's run in `Done` — but no write is
attempted: the store is returned exactly as it was, so any leading real
Quotes of that final page are NOT persisted. -/
theorem c1_sentinel_page_done_without_write (fm : FaultModel) (fetch : Int → FetchResult)
    (db : Option (List Quote)) (unixtime : Int) (data : List Quote) (last : Quote)
    (hg : get (fetch unixtime) = ProcOutcome.returns data)
    (hlast : data.getLast? = some last)
    (hd : isDummyQuote last = true) :
    getHistoricalForStep fm fetch db unixtime = (DriverOutcome.done, db) := by
  rw [getHistoricalForStep_returns fm fetch db unixtime data hg, hlast]
  dsimp only
  rw [if_pos hd]

/-- C1 witness: the final page `[qReal, qSent]` over the store
`[qReal2]` ends the run in `done`, store unchanged. -/
theorem c1_sentinel_page_done_without_write_witness :
    getHistoricalForStep noFault fetchFinalPage (some [qReal2]) 100 =
      (DriverOutcome.done, some [qReal2]) :=
  c1_sentinel_page_done_without_write noFault fetchFinalPage (some [qReal2]) 100
    [qReal, qSent] qSent rfl (by decide) (by decide)

/-- C2 counterexample: on a transport error the driver step is `fatal` —
`log.Fatal` aborts the ENTIRE process (killing every instrument's driver)
— not the claimed per-instrument `failed` termination with the other
instruments unaffected. -/
theorem c2_transport_error_counterexample :
    getHistoricalForStep noFault fetchTransportErr (some []) 0 =
      (DriverOutcome.fatal, some []) := by decide

/-- C2 (amended): for every instrument whose fetch fails with a transport
error, the whole process aborts via `log.Fatal` (outcome `fatal`, store
untouched); in particular no per-instrument `failed` signal is emitted for
it (per-instrument failure isolation holds only for store-write errors). -/
theorem c2_transport_error_aborts_process (fm : FaultModel) (fetch : Int → FetchResult)
    (db : Option (List Quote)) (unixtime : Int)
    (hg : fetch unixtime = FetchResult.transportError) :
    getHistoricalForStep fm fetch db unixtime = (DriverOutcome.fatal, db)
    ∧ ∀ e, getHistoricalForStep fm fetch db unixtime ≠ (DriverOutcome.failed e, db) := by
  have h1 := getHistoricalForStep_fatal fm fetch db unixtime (by rw [hg]; rfl)
  refine ⟨h1, ?_⟩
  intro e hcontra
  rw [h1] at hcontra
  have h2 := congrArg Prod.fst hcontra
  simp at h2

/-- C2 witness: a concrete transport failure at cursor 7. -/
theorem c2_transport_error_aborts_process_witness :
    getHistoricalForStep noFault fetchTransportErr none 7 = (DriverOutcome.fatal, none)
    ∧ getHistoricalForStep noFault fetchTransportErr none 7 ≠
        (DriverOutcome.failed DBError.other, none) :=
  ⟨(c2_transport_error_aborts_process noFault fetchTransportErr none 7 rfl).1,
   (c2_transport_error_aborts_process noFault fetchTransportErr none 7 rfl).2 DBError.other⟩

/-- C3 (code bug, evaluated at the failing input): a malformed response
body is NOT reported — `get` returns whatever was decoded as a normal
result (the decode error is tested against the stale `err` of `http.Get`),
and the caller carries on: with nothing decoded the driver panics on the
empty slice, and with a partially decoded record it silently writes that
partial data and continues the loop — it does not abort with an error. -/
theorem c3_decode_error_silently_ignored :
    get (FetchResult.decodeError []) = ProcOutcome.returns []
    ∧ get (FetchResult.decodeError [qReal]) = ProcOutcome.returns [qReal]
    ∧ getHistoricalForStep noFault fetchDecodeEmpty (some []) 0 =
        (DriverOutcome.panicked, some [])
    ∧ getHistoricalForStep noFault fetchDecodeGarbage (some []) 50 =
        (DriverOutcome.continue_ 9, some [qReal]) := by decide

/-- C9 counterexample: an empty page is NOT guarded: the driver itself
performs the out-of-range last-element access `data[len(data)-1]`
(outcome `panicked`), contrary to the claim that no undefined
last-element access occurs. -/
theorem c9_empty_page_counterexample :
    getHistoricalForStep noFault fetchEmptyPage (some []) 0 =
      (DriverOutcome.panicked, some []) := by decide

/-- C9 (amended): the empty-page case is not guarded — on an empty page
the driver's own last-element lookup is out of range (a Go panic) before
any Write; the Store Writer's first-element lookup, by contrast, never
hits its out-of-range branch on a non-empty batch, and the driver only
ever hands `writeToDB` a page whose last-element access succeeded. -/
theorem c9_empty_page_unguarded (fm : FaultModel) (fetch : Int → FetchResult)
    (db : Option (List Quote)) (unixtime : Int) :
    (get (fetch unixtime) = ProcOutcome.returns [] →
        getHistoricalForStep fm fetch db unixtime = (DriverOutcome.panicked, db))
    ∧ ∀ quotes, quotes ≠ [] → (writeToDB fm db quotes).2 ≠ WriteResult.panicEmpty := by
  constructor
  · intro hg
    rw [getHistoricalForStep_returns fm fetch db unixtime [] hg]
    rfl
  · intro quotes hne hcontra
    simp only [writeToDB] at hcontra
    cases hl : writeQuotesLoop fm.insertFault (db.getD []) [] quotes with
    | error e =>
      rw [hl] at hcontra
      exact WriteResult.noConfusion hcontra
    | ok tx =>
      rw [hl] at hcontra
      dsimp only at hcontra
      cases quotes with
      | nil => exact hne rfl
      | cons q0 rest =>
        simp only [List.head?_cons] at hcontra
        exact WriteResult.noConfusion hcontra

/-- C9 witness: the empty page panics at cursor 5; the writer on the
non-empty `[qReal]` never reports the empty-slice panic. -/
theorem c9_empty_page_unguarded_witness :
    getHistoricalForStep noFault fetchEmptyPage none 5 = (DriverOutcome.panicked, none)
    ∧ (writeToDB noFault none [qReal]).2 ≠ WriteResult.panicEmpty :=
  ⟨(c9_empty_page_unguarded noFault fetchEmptyPage none 5).1 rfl,
   (c9_empty_page_unguarded noFault fetchEmptyPage none 5).2 [qReal] (by decide)⟩
